import Mathlib

/-!
Shallow embedding of the dedupe matching pipeline (`dedupe/api.py`).

Record identifiers are embedded as `Nat` (sqlite compares them by the usual
order), block keys as `String`, similarity scores as `ℚ`, and records of a
dataset as whatever type the caller supplies.  A blocking rule set is
embedded as a function from a record to the list of block keys it produces,
which is exactly the contract `blocking.Blocker` exposes to `api.py`.
-/

namespace DedupeSpec

/-! ### General list helpers -/

/-- Helper: a list without duplicates holds any element at most once. -/
theorem count_le_one_of_nodup {α : Type} [BEq α] [LawfulBEq α] {l : List α}
    (h : l.Nodup) (a : α) : l.count a ≤ 1 := by
  induction l with
  | nil => simp
  | cons x xs ih =>
    rw [List.nodup_cons] at h
    rw [List.count_cons]
    by_cases hxa : x = a
    · subst hxa
      have : xs.count x = 0 := by
        rw [List.count_eq_zero]
        exact h.1
      simp [this]
    · simp only [beq_iff_eq, hxa, if_false]
      simpa using ih h.2

/-! ### Blocking map and pair generation (`DedupeMatching.pairs`) -/

/-- Rows inserted into the sqlite `blocking_map` table: one `(block_key,
record_id)` posting for every key the blocker emits for every record,
mirroring `con.executemany("INSERT INTO blocking_map values (?, ?)",
self.blocker(data.items()))`. -/
def blocking_map {R : Type} (blocker : R → List String) (data : List (Nat × R)) :
    List (String × Nat) :=
  data.flatMap (fun x => (blocker x.2).map (fun k => (k, x.1)))

/-- Embedding of the query `SELECT DISTINCT a.record_id, b.record_id FROM
blocking_map a INNER JOIN blocking_map b USING (block_key) WHERE a.record_id
< b.record_id`: the self equi-join on `block_key` with the ascending
tie-break, with duplicate result rows removed (`DISTINCT`). -/
def select_distinct_pairs (postings : List (String × Nat)) : List (Nat × Nat) :=
  (postings.flatMap (fun a => postings.filterMap (fun b =>
    if a.1 = b.1 ∧ a.2 < b.2 then some (a.2, b.2) else none))).dedup

/-- Embedding of `DedupeMatching.pairs`: build the blocking map for the
dataset, then emit the distinct joined id pairs. -/
def pairs {R : Type} (blocker : R → List String) (data : List (Nat × R)) :
    List (Nat × Nat) :=
  select_distinct_pairs (blocking_map blocker data)

/-- C1. For every dataset and every blocking predicate set,
`DedupeMatching.pairs` yields each unordered pair of distinct record ids at
most once, and each emitted pair is in ascending id order (first id <
second id), even when two records share several block keys. -/
theorem pairs_each_unordered_pair_once_ascending {R : Type}
    (blocker : R → List String) (data : List (Nat × R)) :
    (∀ p ∈ pairs blocker data, p.1 < p.2) ∧
    (∀ a b : Nat,
      List.count (a, b) (pairs blocker data) +
        List.count (b, a) (pairs blocker data) ≤ 1) := by
  have hmem : ∀ p ∈ pairs blocker data, p.1 < p.2 := by
    intro p hp
    simp only [pairs, select_distinct_pairs, List.mem_dedup, List.mem_flatMap,
      List.mem_filterMap] at hp
    obtain ⟨a, _, b, _, hb⟩ := hp
    by_cases h : a.1 = b.1 ∧ a.2 < b.2
    · rw [if_pos h] at hb
      cases hb
      exact h.2
    · rw [if_neg h] at hb
      cases hb
  refine ⟨hmem, ?_⟩
  have hnd : (pairs blocker data).Nodup := List.nodup_dedup _
  intro a b
  rcases lt_trichotomy a b with hab | hab | hab
  · have : (b, a) ∉ pairs blocker data := by
      intro hmem'
      exact absurd (hmem _ hmem') (by simpa using le_of_lt hab)
    rw [List.count_eq_zero.mpr this]
    simpa using count_le_one_of_nodup hnd (a, b)
  · subst hab
    have : (a, a) ∉ pairs blocker data := by
      intro hmem'
      exact absurd (hmem _ hmem') (by simp)
    rw [List.count_eq_zero.mpr this]
    simp
  · have : (a, b) ∉ pairs blocker data := by
      intro hmem'
      exact absurd (hmem _ hmem') (by simpa using le_of_lt hab)
    rw [List.count_eq_zero.mpr this]
    simpa using count_le_one_of_nodup hnd (b, a)

/-! ### Partition completeness (`DedupeMatching.partition` / `_add_singletons`) -/

/-- Helper: if no two elements of a list can both satisfy `p`, then `p` holds
at most once along the list. -/
theorem countP_le_one_of_pairwise {α : Type} {p : α → Bool} :
    ∀ {l : List α}, l.Pairwise (fun a b => ¬(p a = true ∧ p b = true)) →
      l.countP p ≤ 1 := by
  intro l
  induction l with
  | nil => simp
  | cons x xs ih =>
    intro h
    rw [List.pairwise_cons] at h
    rw [List.countP_cons]
    by_cases hx : p x = true
    · have hzero : xs.countP p = 0 := by
        rw [List.countP_eq_zero]
        intro b hb hpb
        exact h.1 b hb ⟨hx, hpb⟩
      simp [hzero, hx]
    · simp only [hx, if_false]
      simpa using ih h.2

/-- Embedding of `DedupeMatching._add_singletons`: re-emit the clusters the
clustering engine produced, then emit every record id of the dataset that
appears in none of them as the singleton cluster `([id], [1.0])`.  A cluster
is embedded as its id sequence paired with its confidence-score sequence. -/
def add_singletons (dataKeys : List Nat) (clusters : List (List Nat × List ℚ)) :
    List (List Nat × List ℚ) :=
  clusters ++
    (dataKeys.filter (fun k => decide (∀ c ∈ clusters, k ∉ c.1))).map
      (fun k => ([k], [1]))

/-- Helper: an element of a duplicate-free list is counted exactly once. -/
theorem countP_eq_one_of_nodup_mem {α : Type} [DecidableEq α] {l : List α}
    (h : l.Nodup) {a : α} (ha : a ∈ l) :
    l.countP (fun x => decide (x = a)) = 1 := by
  induction l with
  | nil => cases ha
  | cons x xs ih =>
    rw [List.nodup_cons] at h
    rw [List.countP_cons]
    rcases List.mem_cons.mp ha with hax | hax
    · subst hax
      have hzero : xs.countP (fun x => decide (x = a)) = 0 := by
        rw [List.countP_eq_zero]
        intro b hb
        simp only [decide_eq_true_eq]
        intro hba
        exact h.1 (hba ▸ hb)
      simp [hzero]
    · have hxa : x ≠ a := by
        intro hxa
        exact h.1 (hxa ▸ hax)
      simp only [decide_eq_true_eq, hxa, if_false]
      simpa using ih h.2 hax

/-- C2. Every record id of the input dataset appears in exactly one output
cluster of `DedupeMatching.partition`, and every id not placed in one of the
multi-record clusters the clustering engine produced appears as the
singleton cluster with confidence score 1.0.  The clusters produced by
`clustering.cluster` (whose code is not in this repository) are modelled
from the spec as pairwise-disjoint groups of at least two ids each. -/
theorem partition_every_id_in_exactly_one_cluster
    (dataKeys : List Nat) (clusters : List (List Nat × List ℚ))
    (hnd : dataKeys.Nodup)
    (_hmulti : ∀ c ∈ clusters, 2 ≤ c.1.length)
    (hdisj : clusters.Pairwise (fun c d => ∀ i, i ∈ c.1 → i ∉ d.1)) :
    (∀ k ∈ dataKeys,
      (add_singletons dataKeys clusters).countP (fun c => decide (k ∈ c.1)) = 1) ∧
    (∀ k ∈ dataKeys, (∀ c ∈ clusters, k ∉ c.1) →
      (([k], ([1] : List ℚ))) ∈ add_singletons dataKeys clusters) := by
  constructor
  · intro k hk
    rw [add_singletons, List.countP_append]
    by_cases hin : ∀ c ∈ clusters, k ∉ c.1
    · have hcl : clusters.countP (fun c => decide (k ∈ c.1)) = 0 := by
        rw [List.countP_eq_zero]
        intro c hc
        simpa using hin c hc
      have hsing :
          ((dataKeys.filter (fun k' => decide (∀ c ∈ clusters, k' ∉ c.1))).map
              (fun k' => (([k'], ([1] : List ℚ))))).countP
            (fun c => decide (k ∈ c.1)) = 1 := by
        rw [List.countP_map]
        have hcongr : ∀ k' ∈ dataKeys.filter
            (fun k' => decide (∀ c ∈ clusters, k' ∉ c.1)),
            (((fun c : List Nat × List ℚ => decide (k ∈ c.1)) ∘
              (fun k' => (([k'], ([1] : List ℚ))))) k' = true ↔
              decide (k' = k) = true) := by
          intro k' _
          simp [Function.comp, eq_comm]
        rw [List.countP_congr hcongr]
        exact countP_eq_one_of_nodup_mem (hnd.filter _)
          (List.mem_filter.mpr ⟨hk, by simpa using hin⟩)
      rw [hcl, hsing]
    · push_neg at hin
      obtain ⟨c₀, hc₀, hkc₀⟩ := hin
      have hcl : clusters.countP (fun c => decide (k ∈ c.1)) = 1 := by
        have hle : clusters.countP (fun c => decide (k ∈ c.1)) ≤ 1 := by
          refine countP_le_one_of_pairwise (hdisj.imp ?_)
          intro c d hcd hboth
          simp only [decide_eq_true_eq] at hboth
          exact hcd k hboth.1 hboth.2
        have hpos : 0 < clusters.countP (fun c => decide (k ∈ c.1)) :=
          List.countP_pos_iff.mpr ⟨c₀, hc₀, by simpa using hkc₀⟩
        omega
      have hsing :
          ((dataKeys.filter (fun k' => decide (∀ c ∈ clusters, k' ∉ c.1))).map
              (fun k' => (([k'], ([1] : List ℚ))))).countP
            (fun c => decide (k ∈ c.1)) = 0 := by
        rw [List.countP_eq_zero]
        intro b hb
        rw [List.mem_map] at hb
        obtain ⟨k', hk', rfl⟩ := hb
        rw [List.mem_filter] at hk'
        simp only [decide_eq_true_eq, List.mem_singleton]
        intro hkk'
        have hnone : ∀ c ∈ clusters, k' ∉ c.1 := by simpa using hk'.2
        exact hnone c₀ hc₀ (hkk' ▸ hkc₀)
      rw [hcl, hsing]
  · intro k hk hout
    rw [add_singletons]
    refine List.mem_append.mpr (Or.inr ?_)
    exact List.mem_map.mpr
      ⟨k, List.mem_filter.mpr ⟨hk, by simpa using hout⟩, rfl⟩

/-- C2 witness: the exactly-once partition property at the concrete dataset
`{1, 2, 3}` with the single two-record cluster `([1, 2], [1, 1])`. -/
theorem partition_every_id_in_exactly_one_cluster_witness :
    (∀ k ∈ [1, 2, 3],
      (add_singletons [1, 2, 3] [([1, 2], [1, 1])]).countP
        (fun c => decide (k ∈ c.1)) = 1) ∧
    (∀ k ∈ [1, 2, 3], (∀ c ∈ [(([1, 2], ([1, 1] : List ℚ)))], k ∉ c.1) →
      (([k], ([1] : List ℚ))) ∈ add_singletons [1, 2, 3] [([1, 2], [1, 1])]) :=
  partition_every_id_in_exactly_one_cluster [1, 2, 3] [([1, 2], [1, 1])]
    (by decide) (by decide) (List.pairwise_singleton _ _)

/-! ### Gazetteer search result formatting
(`GazetteerMatching._format_search_results`) -/

/-- Embedding of `GazetteerMatching._format_search_results`.  For each
gazette result group it yields `(a, prepared)` where `a` is the loop
variable after the inner `for (a, b), score in result` loop (the query id of
the last pair, `none` for an empty group) and `prepared` collects
`(candidate_id, score)`.  It then yields `(k, ())` for every query id `k` in
`search_d.keys() - seen`; the Python `seen` set is initialized empty and
never added to, which this embedding reproduces literally. -/
def format_search_results (searchKeys : List Nat)
    (results : List (List ((Nat × Nat) × ℚ))) :
    List (Option Nat × List (Nat × ℚ)) :=
  let seen : List Nat := []
  (results.map (fun result =>
      ((result.map (fun p => p.1.1)).getLast?,
       result.map (fun p => (p.1.2, p.2))))) ++
    ((searchKeys.filter (fun k => decide (k ∉ seen))).map (fun k => (some k, [])))

/-- C3. Counterexample to "every query id is represented exactly once in the
result stream": a messy dataset with the single query record 1, whose one
gazette result group matches canonical record 7 with score 9/10, is
formatted as two entries for query id 1 — the match entry and an
empty-match entry — because the `seen` set is never updated. -/
theorem search_emits_query_id_twice :
    format_search_results [1] [[((1, 7), 9/10)]] =
      [(some 1, [(7, 9/10)]), (some 1, [])] ∧
    (format_search_results [1] [[((1, 7), 9/10)]]).countP
      (fun r => decide (r.1 = some 1)) = 2 := by
  constructor <;> rfl

/-! ### Settings artifact (`ActiveMatching.write_settings` /
`StaticMatching.__init__`) -/

/-- Error classes a `pickle.load` call can raise in
`StaticMatching.__init__`: `KeyError` and `AttributeError` (the classes its
first `except` clause catches, the version-mismatch signature) and any other
deserialization failure (caught by the bare `except`). -/
inductive PyLoadError : Type
  | keyError
  | attributeError
  | unpicklingError
deriving DecidableEq

/-- Trained-model state a matcher carries: the data model, the classifier
and the predicate sequence, each an opaque serialized object of type `O`. -/
structure ModelSettings (O : Type) where
  data_model : O
  classifier : O
  predicates : O

/-- Embedding of `ActiveMatching.write_settings`: three `pickle.dump` calls
append the data model, then the classifier, then the predicates to the
settings file, in that order. -/
def write_settings {O : Type} (m : ModelSettings O) : List (Except PyLoadError O) :=
  [Except.ok m.data_model, Except.ok m.classifier, Except.ok m.predicates]

/-- One `pickle.load` call: consume the next object of the stream, or raise
the error that object's deserialization produces (an exhausted stream is a
generic deserialization failure). -/
def pickle_load {O : Type} (stream : List (Except PyLoadError O)) :
    Except PyLoadError (O × List (Except PyLoadError O)) :=
  match stream with
  | [] => Except.error PyLoadError.unpicklingError
  | Except.ok x :: rest => Except.ok (x, rest)
  | Except.error e :: _ => Except.error e

/-- The `try` block of `StaticMatching.__init__`: three `pickle.load` calls
reading, strictly in this order, the data model, the classifier and the
predicates. -/
def load_settings {O : Type} (stream : List (Except PyLoadError O)) :
    Except PyLoadError (ModelSettings O) :=
  match pickle_load stream with
  | Except.error e => Except.error e
  | Except.ok (dm, s1) =>
    match pickle_load s1 with
    | Except.error e => Except.error e
    | Except.ok (cl, s2) =>
      match pickle_load s2 with
      | Except.error e => Except.error e
      | Except.ok (pr, _) => Except.ok ⟨dm, cl, pr⟩

/-- Message of the `SettingsFileLoadingException` raised for
`KeyError`/`AttributeError` (the version-mismatch case). -/
def version_message : String :=
  "This settings file is not compatible with the current version of dedupe."

/-- Message of the `SettingsFileLoadingException` raised by the bare
`except` clause for any other load failure. -/
def generic_message : String :=
  "Something has gone wrong with loading the settings file."

/-- Outcome of `StaticMatching.__init__`: either a fully constructed matcher
(the loaded settings plus the blocker built from the loaded predicates), or
the distinct `SettingsFileLoadingException` with its message. -/
inductive StaticInitResult (O : Type)
  | ok (m : ModelSettings O) (blocker_predicates : O)
  | settingsFileLoadingException (msg : String)

/-- Embedding of `StaticMatching.__init__`: run the three loads; a
`KeyError`/`AttributeError` becomes the version-message
`SettingsFileLoadingException`, any other failure the generic-message one;
on success the blocker is built from the predicates just read. -/
def static_matching_init {O : Type} (stream : List (Except PyLoadError O)) :
    StaticInitResult O :=
  match load_settings stream with
  | Except.ok m => StaticInitResult.ok m m.predicates
  | Except.error PyLoadError.keyError =>
    StaticInitResult.settingsFileLoadingException version_message
  | Except.error PyLoadError.attributeError =>
    StaticInitResult.settingsFileLoadingException version_message
  | Except.error PyLoadError.unpicklingError =>
    StaticInitResult.settingsFileLoadingException generic_message

/-- C6. Writing a settings artifact with `write_settings` and constructing a
`StaticMatching` from it reproduces the same data model, classifier and
predicate sequence, read strictly in that order, so the fresh matcher
yields identical scores on any fixed pair set, whatever (pure) scoring
function the data model and classifier induce. -/
theorem write_settings_static_matching_roundtrip {O : Type} (m : ModelSettings O)
    (score : O → O → List (Nat × Nat) → List ℚ) (fixed_pairs : List (Nat × Nat)) :
    static_matching_init (write_settings m) = StaticInitResult.ok m m.predicates ∧
    (match static_matching_init (write_settings m) with
     | StaticInitResult.ok m2 _ => score m2.data_model m2.classifier fixed_pairs
     | StaticInitResult.settingsFileLoadingException _ => []) =
      score m.data_model m.classifier fixed_pairs := by
  constructor <;> rfl

/-- C7. Every failing settings load surfaces as the distinct
`SettingsFileLoadingException` rather than as the propagated raw error,
and the version-mismatch case (`KeyError`/`AttributeError`) carries the
version-specific message, distinguishable from the generic-failure
message. -/
theorem settings_load_failure_reported_distinctly {O : Type}
    (stream : List (Except PyLoadError O)) (e : PyLoadError)
    (h : load_settings stream = Except.error e) :
    static_matching_init stream =
      StaticInitResult.settingsFileLoadingException
        (if e = PyLoadError.unpicklingError then generic_message
         else version_message) ∧
    version_message ≠ generic_message := by
  refine ⟨?_, by decide⟩
  rw [static_matching_init, h]
  cases e <;> rfl

/-- C7 witness: a settings stream whose first object raises `KeyError`
is reported with the version-specific message. -/
theorem settings_load_failure_reported_distinctly_witness :
    static_matching_init (O := Nat) [Except.error PyLoadError.keyError] =
      StaticInitResult.settingsFileLoadingException
        (if PyLoadError.keyError = PyLoadError.unpicklingError then generic_message
         else version_message) ∧
    version_message ≠ generic_message :=
  settings_load_failure_reported_distinctly [Except.error PyLoadError.keyError]
    PyLoadError.keyError rfl

/-! ### Active-learning pair selection (`ActiveMatching.uncertain_pairs`) -/

/-- State of an `ActiveMatching` instance that matters to
`uncertain_pairs`: `active_learner` is `None` until the sampling /
`prepare_training` step initializes it. -/
structure ActiveMatchingState (L : Type) where
  active_learner : Option L

/-- Embedding of `ActiveMatching.uncertain_pairs`: `assert
self.active_learner, "Please initialize with the sample method"` followed by
`return self.active_learner.pop()`.  `pop` is the learner's selection
function, a parameter here since the learner lives outside `api.py`. -/
def uncertain_pairs {L P : Type} (pop : L → P) (st : ActiveMatchingState L) :
    Except String P :=
  match st.active_learner with
  | none => Except.error "Please initialize with the sample method"
  | some learner => Except.ok (pop learner)

/-- C9. `uncertain_pairs` fails (with the assertion message) exactly when it
is called before the active-learning sample has been initialized; under the
precondition that the learner is initialized it returns the learner's
selected pair without failing on that account. -/
theorem uncertain_pairs_requires_initialized_learner {L P : Type}
    (pop : L → P) (st : ActiveMatchingState L) :
    (st.active_learner = none →
      uncertain_pairs pop st =
        Except.error "Please initialize with the sample method") ∧
    (∀ learner, st.active_learner = some learner →
      uncertain_pairs pop st = Except.ok (pop learner)) := by
  constructor
  · intro h
    rw [uncertain_pairs, h]
  · intro learner h
    rw [uncertain_pairs, h]

/-- C9 witness: the uninitialized state fails with the assertion message and
an initialized state returns the learner's selected pair. -/
theorem uncertain_pairs_requires_initialized_learner_witness :
    uncertain_pairs (fun n : Nat => n + 1) ⟨none⟩ =
      Except.error "Please initialize with the sample method" ∧
    uncertain_pairs (fun n : Nat => n + 1) ⟨some 5⟩ = Except.ok 6 :=
  ⟨(uncertain_pairs_requires_initialized_learner (fun n : Nat => n + 1) ⟨none⟩).1 rfl,
   (uncertain_pairs_requires_initialized_learner (fun n : Nat => n + 1) ⟨some 5⟩).2 5 rfl⟩

/-! ### Gazetteer index state (`GazetteerMatching.index` / `unindex` /
`blocks`) -/

/-- A canonical record, abstracted to the field values the blocker sees. -/
abbrev RecordKeys : Type := List String

/-- Persistent state of a `GazetteerMatching` instance: the sqlite
`indexed_records (block_key, record_id)` table (with its
`UNIQUE(block_key, record_id)` constraint) and the in-memory
`indexed_data` dict. -/
structure GazetteerState where
  indexed_records : List (String × Nat)
  indexed_data : List (Nat × RecordKeys)

/-- Gazetteer state of a freshly constructed instance. -/
def emptyGazetteer : GazetteerState := ⟨[], []⟩

/-- Embedding of `dict.update`: entries of `data` replace entries of `d`
with the same key. -/
def dict_update (d data : List (Nat × RecordKeys)) : List (Nat × RecordKeys) :=
  d.filter (fun kv => decide (∀ x ∈ data, x.1 ≠ kv.1)) ++ data

/-- Embedding of sqlite `REPLACE INTO` against the
`UNIQUE(block_key, record_id)` constraint: each inserted row evicts only a
prior row with the identical `(block_key, record_id)` value. -/
def replace_into (table rows : List (String × Nat)) : List (String × Nat) :=
  rows.foldl (fun t row => t.filter (fun r => decide (r ≠ row)) ++ [row]) table

/-- Embedding of `GazetteerMatching.index`: insert the blocker's postings
for `data` with `REPLACE INTO indexed_records`, commit, and update
`indexed_data` in memory. -/
def gazetteer_index (blocker : RecordKeys → List String) (st : GazetteerState)
    (data : List (Nat × RecordKeys)) : GazetteerState :=
  { indexed_records :=
      replace_into st.indexed_records
        (data.flatMap (fun x => (blocker x.2).map (fun k => (k, x.1)))),
    indexed_data := dict_update st.indexed_data data }

/-- Embedding of the id pairs `GazetteerMatching.blocks` emits: the blocking
map of the query dataset equi-joined (`SELECT DISTINCT`) against the
persisted `indexed_records` table on `block_key`. -/
def gazetteer_blocks_pairs (blocker : RecordKeys → List String)
    (st : GazetteerState) (data_1 : List (Nat × RecordKeys)) :
    List (Nat × Nat) :=
  ((data_1.flatMap (fun x => (blocker x.2).map (fun k => (k, x.1)))).flatMap
    (fun a => st.indexed_records.filterMap
      (fun b => if b.1 = a.1 then some (a.2, b.2) else none))).dedup

/-- C8. Counterexample to update-in-place semantics of
`GazetteerMatching.index`: record 1 is indexed with block key `"X"`, then
re-indexed with the new sole block key `"Z"`; the stale posting
`("X", 1)` survives (`REPLACE INTO` only evicts identical rows), so a
subsequent `blocks` query with key `"X"` still joins record 1 through its
old block key. -/
theorem gazetteer_reindex_leaves_stale_postings :
    (("X", 1) ∈ (gazetteer_index id
        (gazetteer_index id emptyGazetteer [(1, ["X"])]) [(1, ["Z"])]).indexed_records) ∧
    gazetteer_blocks_pairs id
        (gazetteer_index id
          (gazetteer_index id emptyGazetteer [(1, ["X"])]) [(1, ["Z"])])
        [(9, ["X"])] = [(9, 1)] := by
  constructor
  · decide
  · rfl

/-- The final loop of `GazetteerMatching.unindex` (`for k in data: del
self.indexed_data[k]`): delete each key in turn, raising `KeyError` at the
first key absent from the dict; the second component is the dict as it
stands when the loop stops. -/
def del_loop (d : List (Nat × RecordKeys)) :
    List Nat → Except Unit Unit × List (Nat × RecordKeys)
  | [] => (Except.ok (), d)
  | k :: ks =>
    if d.any (fun kv => kv.1 == k) then
      del_loop (d.filter (fun kv => kv.1 != k)) ks
    else (Except.error (), d)

/-- Embedding of `GazetteerMatching.unindex`: the sql `DELETE FROM
indexed_records WHERE record_id = ?` runs for every given id and is
committed, and only then does the `del` loop touch `indexed_data`.  The
returned state holds whatever the call left behind, error or not. -/
def gazetteer_unindex (st : GazetteerState) (data : List (Nat × RecordKeys)) :
    Except Unit Unit × GazetteerState :=
  let committed_records :=
    st.indexed_records.filter (fun row => decide (∀ x ∈ data, x.1 ≠ row.2))
  let r := del_loop st.indexed_data (data.map (fun x => x.1))
  (r.1, { indexed_records := committed_records, indexed_data := r.2 })

/-- Helper: the `del` loop raises `KeyError` whenever one of the keys is
absent from the dict. -/
theorem del_loop_error_of_missing :
    ∀ (ks : List Nat) (d : List (Nat × RecordKeys)),
      (∃ k ∈ ks, ∀ kv ∈ d, kv.1 ≠ k) → (del_loop d ks).1 = Except.error () := by
  intro ks
  induction ks with
  | nil =>
    intro d h
    obtain ⟨k, hk, -⟩ := h
    cases hk
  | cons k₀ ks ih =>
    intro d h
    obtain ⟨k, hk, hmiss⟩ := h
    rw [del_loop]
    by_cases hany : d.any (fun kv => kv.1 == k₀) = true
    · rw [if_pos hany]
      have hkks : k ∈ ks := by
        rcases List.mem_cons.mp hk with hkk₀ | hkks
        · exfalso
          obtain ⟨kv, hkv, hkveq⟩ := List.any_eq_true.mp hany
          exact hmiss kv hkv (by subst hkk₀; exact (by simpa using hkveq))
        · exact hkks
      exact ih _ ⟨k, hkks, fun kv hkv =>
        hmiss kv (List.mem_filter.mp hkv).1⟩
    · rw [if_neg hany]

/-- C10. Calling `GazetteerMatching.unindex` with any record id that is not
currently indexed raises `KeyError` from `del self.indexed_data[k]`, and the
failure is not atomic: the committed posting-table deletions for all given
ids have already happened, so no posting for any given id survives in the
returned state. -/
theorem unindex_missing_id_raises_after_commit (st : GazetteerState)
    (data : List (Nat × RecordKeys))
    (h : ∃ x ∈ data, ∀ kv ∈ st.indexed_data, kv.1 ≠ x.1) :
    (gazetteer_unindex st data).1 = Except.error () ∧
    (∀ x ∈ data, ∀ key : String,
      (key, x.1) ∉ (gazetteer_unindex st data).2.indexed_records) := by
  constructor
  · obtain ⟨x, hx, hmiss⟩ := h
    exact del_loop_error_of_missing _ _
      ⟨x.1, List.mem_map.mpr ⟨x, hx, rfl⟩, hmiss⟩
  · intro x hx key hmem
    have := (List.mem_filter.mp hmem).2
    simp only [decide_eq_true_eq] at this
    exact this x hx rfl

/-- C10 witness: unindexing `{1, 2}` when only record 1 is indexed raises
`KeyError` and still leaves no posting for record 1 or record 2. -/
theorem unindex_missing_id_raises_after_commit_witness :
    (gazetteer_unindex ⟨[("X", 1)], [(1, ["X"])]⟩
        [(1, ["X"]), (2, ["Y"])]).1 = Except.error () ∧
    (∀ x ∈ [(1, (["X"] : RecordKeys)), (2, ["Y"])], ∀ key : String,
      (key, x.1) ∉ (gazetteer_unindex ⟨[("X", 1)], [(1, ["X"])]⟩
        [(1, ["X"]), (2, ["Y"])]).2.indexed_records) :=
  unindex_missing_id_raises_after_commit ⟨[("X", 1)], [(1, ["X"])]⟩
    [(1, ["X"]), (2, ["Y"])] (by decide)

/-! ### Clustering engine scans (`one_to_one`, `many_to_one`,
`pair_gazette_matching`)

The module `dedupe/clustering.py` that `api.py` calls is not among the
repository's files, so its three scans are modelled from the spec: the
greedy descending-score scans of section 4.4 and the per-query-group top-N
gazetteer selection. -/

/-- A scored link: an id pair and its similarity score. -/
abbrev Link : Type := (Nat × Nat) × ℚ

/-- Insert an element into a descending-score list, keeping it descending
(stable: equal scores keep the earlier element first). -/
def insertDesc {α : Type} (key : α → ℚ) (x : α) : List α → List α
  | [] => [x]
  | y :: ys => if key y < key x then x :: y :: ys else y :: insertDesc key x ys

/-- Modelled from the spec: "sort all scored pairs by descending score"
(insertion sort by the given score key). -/
def sortDesc {α : Type} (key : α → ℚ) : List α → List α
  | [] => []
  | x :: xs => insertDesc key x (sortDesc key xs)

/-- Modelled from the spec: the scan of one-to-one linkage over an already
sorted pair list — "repeatedly accept the highest remaining pair whose both
endpoints are still unmatched, discard pairs touching an already-matched
endpoint" (the spec's scenario 7 confirms a single consumed id set: there,
`(2, 4)` is skipped because 2 was consumed as a right endpoint). -/
def scan_both_sides : List Link → List Nat → List Link
  | [], _ => []
  | l :: rest, matched =>
    if l.1.1 ∈ matched ∨ l.1.2 ∈ matched then scan_both_sides rest matched
    else l :: scan_both_sides rest (l.1.1 :: l.1.2 :: matched)

/-- Modelled from the spec: `clustering.greedyMatching` — the greedy
maximum-weight matching of section 4.4, scanning pairs in descending score
order. -/
def greedyMatching (scores : List Link) : List Link :=
  scan_both_sides (sortDesc (fun l => l.2) scores) []

/-- Embedding of `RecordLinkMatching.one_to_one`: it yields
`clustering.greedyMatching(scores)`. -/
def one_to_one (scores : List Link) : List Link := greedyMatching scores

/-- Modelled from the spec: the many-to-one greedy scan — "identical greedy
scan but only the 'one' side's endpoint is marked consumed after a match". -/
def scan_one_side : List Link → List Nat → List Link
  | [], _ => []
  | l :: rest, consumed =>
    if l.1.1 ∈ consumed then scan_one_side rest consumed
    else l :: scan_one_side rest (l.1.1 :: consumed)

/-- Modelled from the spec: the many-to-one greedy scan run on the
descending-score ordering of the scored pairs. -/
def greedy_many_to_one (scores : List Link) : List Link :=
  scan_one_side (sortDesc (fun l => l.2) scores) []

/-- Modelled from the spec: `clustering.pair_gazette_matching` — group the
scored pairs by query record id, and for each query group sort candidates
by descending score and truncate to `n_matches`. -/
def pair_gazette_matching (scores : List Link) (n_matches : Nat) : List Link :=
  ((scores.map (fun l => l.1.1)).dedup).flatMap
    (fun a => (sortDesc (fun l => l.2)
      (scores.filter (fun l => decide (l.1.1 = a)))).take n_matches)

/-- Embedding of `RecordLinkMatching.many_to_one`: it yields
`clustering.pair_gazette_matching(scores, 1)`. -/
def many_to_one (scores : List Link) : List Link :=
  pair_gazette_matching scores 1

/-- Helper: the accepted links of the one-to-one scan avoid the consumed id
set, and their left members and right members are each duplicate-free. -/
theorem scan_both_sides_invariant :
    ∀ (xs : List Link) (matched : List Nat),
      (∀ l ∈ scan_both_sides xs matched,
        l.1.1 ∉ matched ∧ l.1.2 ∉ matched) ∧
      ((scan_both_sides xs matched).map (fun l => l.1.1)).Nodup ∧
      ((scan_both_sides xs matched).map (fun l => l.1.2)).Nodup := by
  intro xs
  induction xs with
  | nil => intro matched; simp [scan_both_sides]
  | cons x rest ih =>
    intro matched
    rw [scan_both_sides]
    by_cases hx : x.1.1 ∈ matched ∨ x.1.2 ∈ matched
    · rw [if_pos hx]
      exact ih matched
    · rw [if_neg hx]
      push_neg at hx
      obtain ⟨ihmem, ihl, ihr⟩ := ih (x.1.1 :: x.1.2 :: matched)
      refine ⟨?_, ?_, ?_⟩
      · intro l hl
        rcases List.mem_cons.mp hl with rfl | hl'
        · exact hx
        · have := ihmem l hl'
          constructor
          · exact fun hmem => this.1 (by simp [hmem])
          · exact fun hmem => this.2 (by simp [hmem])
      · rw [List.map_cons, List.nodup_cons]
        refine ⟨?_, ihl⟩
        intro hmem
        rw [List.mem_map] at hmem
        obtain ⟨l, hl, hleq⟩ := hmem
        exact (ihmem l hl).1 (by simp [hleq])
      · rw [List.map_cons, List.nodup_cons]
        refine ⟨?_, ihr⟩
        intro hmem
        rw [List.mem_map] at hmem
        obtain ⟨l, hl, hleq⟩ := hmem
        exact (ihmem l hl).2 (by simp [hleq])

/-- C4. In the output of `RecordLinkMatching.one_to_one` — the greedy scan
that accepts pairs in descending score order while both endpoints are still
unmatched — no record id appears as the left member of more than one link
and no record id appears as the right member of more than one link. -/
theorem one_to_one_left_right_injective (scores : List Link) :
    ((one_to_one scores).map (fun l => l.1.1)).Nodup ∧
    ((one_to_one scores).map (fun l => l.1.2)).Nodup :=
  ⟨(scan_both_sides_invariant _ []).2.1, (scan_both_sides_invariant _ []).2.2⟩

/-- Helper: membership in an insertion step. -/
theorem mem_insertDesc {α : Type} (key : α → ℚ) (x : α) :
    ∀ (l : List α) (y : α), y ∈ insertDesc key x l ↔ y = x ∨ y ∈ l := by
  intro l
  induction l with
  | nil => intro y; simp [insertDesc]
  | cons z zs ih =>
    intro y
    rw [insertDesc]
    by_cases h : key z < key x
    · rw [if_pos h]
      simp [List.mem_cons]
    · rw [if_neg h]
      simp only [List.mem_cons, ih]
      tauto

/-- Helper: an insertion step permutes consing. -/
theorem insertDesc_perm {α : Type} (key : α → ℚ) (x : α) :
    ∀ (l : List α), (insertDesc key x l).Perm (x :: l) := by
  intro l
  induction l with
  | nil => simp [insertDesc]
  | cons z zs ih =>
    rw [insertDesc]
    by_cases h : key z < key x
    · rw [if_pos h]
    · rw [if_neg h]
      exact (ih.cons z).trans (List.Perm.swap x z zs)

/-- Helper: the descending sort permutes its input. -/
theorem sortDesc_perm {α : Type} (key : α → ℚ) :
    ∀ (l : List α), (sortDesc key l).Perm l := by
  intro l
  induction l with
  | nil => simp [sortDesc]
  | cons x xs ih =>
    rw [sortDesc]
    exact (insertDesc_perm key x (sortDesc key xs)).trans (ih.cons x)

/-- Helper: an insertion step preserves descending order. -/
theorem insertDesc_pairwise {α : Type} (key : α → ℚ) (x : α) :
    ∀ {l : List α}, l.Pairwise (fun a b => key b ≤ key a) →
      (insertDesc key x l).Pairwise (fun a b => key b ≤ key a) := by
  intro l
  induction l with
  | nil => intro _; simp [insertDesc]
  | cons z zs ih =>
    intro h
    rw [List.pairwise_cons] at h
    rw [insertDesc]
    by_cases hzx : key z < key x
    · rw [if_pos hzx]
      rw [List.pairwise_cons]
      refine ⟨?_, List.pairwise_cons.mpr h⟩
      intro b hb
      rcases List.mem_cons.mp hb with rfl | hbzs
      · exact le_of_lt hzx
      · exact le_trans (h.1 b hbzs) (le_of_lt hzx)
    · rw [if_neg hzx]
      rw [List.pairwise_cons]
      refine ⟨?_, ih h.2⟩
      intro b hb
      rcases (mem_insertDesc key x zs b).mp hb with rfl | hbzs
      · exact not_lt.mp hzx
      · exact h.1 b hbzs

/-- Helper: the descending sort is descending. -/
theorem sortDesc_pairwise {α : Type} (key : α → ℚ) :
    ∀ (l : List α), (sortDesc key l).Pairwise (fun a b => key b ≤ key a) := by
  intro l
  induction l with
  | nil => simp [sortDesc]
  | cons x xs ih =>
    rw [sortDesc]
    exact insertDesc_pairwise key x ih

/-- Helper: membership is preserved by the descending sort. -/
theorem mem_sortDesc {α : Type} (key : α → ℚ) (l : List α) (x : α) :
    x ∈ sortDesc key l ↔ x ∈ l :=
  (sortDesc_perm key l).mem_iff

/-- Helper: with pairwise-distinct scores, the descending sort of scored
links is strictly descending. -/
theorem sortDesc_pairwise_lt (scores : List Link)
    (hdist : (scores.map (fun l => l.2)).Nodup) :
    (sortDesc (fun l => l.2) scores).Pairwise (fun a b => b.2 < a.2) := by
  have hperm : ((sortDesc (fun l => l.2) scores).map (fun l => l.2)).Perm
      (scores.map (fun l => l.2)) :=
    (sortDesc_perm (fun l => l.2) scores).map _
  have hnd : ((sortDesc (fun l => l.2) scores).map (fun l => l.2)).Nodup :=
    hperm.symm.nodup hdist
  have hne : (sortDesc (fun l => l.2) scores).Pairwise
      (fun a b => (a.2 : ℚ) ≠ b.2) := List.pairwise_map.mp hnd
  have hle := sortDesc_pairwise (fun l => l.2) scores
  exact (hle.and hne).imp (fun h => lt_of_le_of_ne h.1 (Ne.symm h.2))

/-- Helper: the strictly sorted score list has no duplicate links. -/
theorem nodup_of_pairwise_lt {xs : List Link}
    (h : xs.Pairwise (fun a b => b.2 < a.2)) : xs.Nodup :=
  h.imp (fun hlt heq => absurd (heq ▸ hlt) (lt_irrefl _))

/-- Helper: the many-to-one scan selects a sublist of its input. -/
theorem scan_one_side_sublist :
    ∀ (xs : List Link) (C : List Nat), (scan_one_side xs C).Sublist xs := by
  intro xs
  induction xs with
  | nil => intro C; simp [scan_one_side]
  | cons x rest ih =>
    intro C
    rw [scan_one_side]
    by_cases hC : x.1.1 ∈ C
    · rw [if_pos hC]
      exact (ih C).cons x
    · rw [if_neg hC]
      exact (ih (x.1.1 :: C)).cons₂ x

/-- Helper: on a strictly descending pair list, the many-to-one scan keeps
exactly the pairs whose left id is unconsumed and whose score is maximal
among the pairs sharing that left id. -/
theorem scan_one_side_mem :
    ∀ (xs : List Link), xs.Pairwise (fun a b => b.2 < a.2) →
      ∀ (C : List Nat) (l : Link),
        l ∈ scan_one_side xs C ↔
          l ∈ xs ∧ l.1.1 ∉ C ∧ ∀ l' ∈ xs, l'.1.1 = l.1.1 → l'.2 ≤ l.2 := by
  intro xs
  induction xs with
  | nil => intro _ C l; simp [scan_one_side]
  | cons x rest ih =>
    intro hs C l
    rw [List.pairwise_cons] at hs
    obtain ⟨hx, hrest⟩ := hs
    rw [scan_one_side]
    by_cases hC : x.1.1 ∈ C
    · rw [if_pos hC, ih hrest C l]
      constructor
      · rintro ⟨hlrest, hlC, hmax⟩
        refine ⟨List.mem_cons_of_mem _ hlrest, hlC, ?_⟩
        intro l' hl' heq
        rcases List.mem_cons.mp hl' with rfl | hl'r
        · exact absurd (heq ▸ hC) hlC
        · exact hmax l' hl'r heq
      · rintro ⟨hlmem, hlC, hmax⟩
        rcases List.mem_cons.mp hlmem with rfl | hlrest
        · exact absurd hC hlC
        · exact ⟨hlrest, hlC,
            fun l' hl' heq => hmax l' (List.mem_cons_of_mem _ hl') heq⟩
    · rw [if_neg hC]
      constructor
      · intro hl
        rcases List.mem_cons.mp hl with rfl | hl'
        · refine ⟨List.mem_cons_self _ _, hC, ?_⟩
          intro l' hl' heq
          rcases List.mem_cons.mp hl' with rfl | hl'r
          · exact le_refl _
          · exact le_of_lt (hx l' hl'r)
        · rw [ih hrest (x.1.1 :: C) l] at hl'
          obtain ⟨hlrest, hlC', hmax⟩ := hl'
          have hne : l.1.1 ≠ x.1.1 := fun h => hlC' (by simp [h])
          refine ⟨List.mem_cons_of_mem _ hlrest,
            fun h => hlC' (List.mem_cons_of_mem _ h), ?_⟩
          intro l' hl' heq
          rcases List.mem_cons.mp hl' with rfl | hl'r
          · exact absurd heq hne.symm
          · exact hmax l' hl'r heq
      · rintro ⟨hlmem, hlC, hmax⟩
        rcases List.mem_cons.mp hlmem with rfl | hlrest
        · exact List.mem_cons_self _ _
        · have hlt : l.2 < x.2 := hx l hlrest
          have hne : l.1.1 ≠ x.1.1 := by
            intro heq
            exact absurd (hmax x (List.mem_cons_self _ _) heq.symm)
              (not_le.mpr hlt)
          refine List.mem_cons_of_mem _ ?_
          rw [ih hrest (x.1.1 :: C) l]
          refine ⟨hlrest, ?_,
            fun l' hl' heq => hmax l' (List.mem_cons_of_mem _ hl') heq⟩
          intro h
          rcases List.mem_cons.mp h with h' | h'
          · exact hne h'
          · exact hlC h'

/-- Helper: membership in the first element taken. -/
theorem mem_take_one {α : Type} (ys : List α) (l : α) :
    l ∈ ys.take 1 ↔ ys.head? = some l := by
  cases ys <;> simp [eq_comm]

/-- Helper: with pairwise-distinct scores, the head of the descending sort
is exactly the maximum-score element. -/
theorem head_sortDesc_iff (g : List Link)
    (hnd : (g.map (fun l => l.2)).Nodup) (l : Link) :
    (sortDesc (fun l => l.2) g).head? = some l ↔
      l ∈ g ∧ ∀ y ∈ g, y.2 ≤ l.2 := by
  have hperm := sortDesc_perm (fun l => l.2) g
  have hpair := sortDesc_pairwise (fun l => l.2) g
  constructor
  · intro h
    match hsd : sortDesc (fun l => l.2) g with
    | [] => rw [hsd] at h; cases h
    | a :: t =>
      rw [hsd] at h hperm hpair
      have hal : a = l := by
        simpa using h
      subst hal
      rw [List.pairwise_cons] at hpair
      refine ⟨hperm.mem_iff.mp (List.mem_cons_self _ _), ?_⟩
      intro y hy
      rcases List.mem_cons.mp (hperm.mem_iff.mpr hy) with rfl | hyt
      · exact le_refl _
      · exact hpair.1 y hyt
  · rintro ⟨hlg, hmax⟩
    match hsd : sortDesc (fun l => l.2) g with
    | [] =>
      exfalso
      rw [hsd] at hperm
      exact absurd (hperm.mem_iff.mpr hlg) (List.not_mem_nil l)
    | a :: t =>
      rw [hsd] at hperm hpair
      have hag : a ∈ g := hperm.mem_iff.mp (List.mem_cons_self _ _)
      have hkey : a.2 = l.2 := by
        rcases List.mem_cons.mp (hperm.mem_iff.mpr hlg) with rfl | hlt
        · rfl
        · rw [List.pairwise_cons] at hpair
          exact le_antisymm (hmax a hag) (hpair.1 l hlt)
      have : a = l := List.inj_on_of_nodup_map hnd hag hlg hkey
      rw [hsd, this]
      rfl

/-- Helper: with pairwise-distinct scores, membership in the gazetteer
top-1 output is membership in the input with maximal score among the
pairs sharing the link's left (query) id. -/
theorem many_to_one_mem (scores : List Link)
    (hdist : (scores.map (fun l => l.2)).Nodup) (l : Link) :
    l ∈ many_to_one scores ↔
      l ∈ scores ∧ ∀ l' ∈ scores, l'.1.1 = l.1.1 → l'.2 ≤ l.2 := by
  have hgnd : ∀ a : Nat,
      ((scores.filter (fun l' => decide (l'.1.1 = a))).map
        (fun l => l.2)).Nodup :=
    fun a => ((List.filter_sublist scores).map _).nodup hdist
  rw [many_to_one, pair_gazette_matching]
  simp only [List.mem_flatMap, List.mem_dedup, List.mem_map]
  constructor
  · rintro ⟨a, -, hltake⟩
    rw [mem_take_one, head_sortDesc_iff _ (hgnd a)] at hltake
    obtain ⟨hlg, hmax⟩ := hltake
    rw [List.mem_filter] at hlg
    have ha : l.1.1 = a := by simpa using hlg.2
    refine ⟨hlg.1, ?_⟩
    intro l' hl' heq
    exact hmax l' (List.mem_filter.mpr ⟨hl', by simp [heq, ha]⟩)
  · rintro ⟨hl, hmax⟩
    refine ⟨l.1.1, ⟨l, hl, rfl⟩, ?_⟩
    rw [mem_take_one, head_sortDesc_iff _ (hgnd l.1.1)]
    refine ⟨List.mem_filter.mpr ⟨hl, by simp⟩, ?_⟩
    intro y hy
    rw [List.mem_filter] at hy
    exact hmax y hy.1 (by simpa using hy.2)

/-- Helper: with pairwise-distinct scores, membership in the many-to-one
greedy scan output is the same maximality property. -/
theorem greedy_many_to_one_mem (scores : List Link)
    (hdist : (scores.map (fun l => l.2)).Nodup) (l : Link) :
    l ∈ greedy_many_to_one scores ↔
      l ∈ scores ∧ ∀ l' ∈ scores, l'.1.1 = l.1.1 → l'.2 ≤ l.2 := by
  have hstrict := sortDesc_pairwise_lt scores hdist
  rw [greedy_many_to_one, scan_one_side_mem _ hstrict [] l]
  have hmem := mem_sortDesc (fun l => l.2) scores
  constructor
  · rintro ⟨hl, -, hmax⟩
    exact ⟨(hmem l).mp hl,
      fun l' hl' heq => hmax l' ((hmem l').mpr hl') heq⟩
  · rintro ⟨hl, hmax⟩
    exact ⟨(hmem l).mpr hl, List.not_mem_nil _,
      fun l' hl' heq => hmax l' ((hmem l').mp hl') heq⟩

/-- Helper: a one-element prefix has no duplicates. -/
theorem take_one_nodup {α : Type} (ys : List α) : (ys.take 1).Nodup := by
  cases ys <;> simp

/-- Helper: the gazetteer top-1 output has no duplicate links. -/
theorem many_to_one_nodup (scores : List Link) :
    (many_to_one scores).Nodup := by
  rw [many_to_one, pair_gazette_matching, List.nodup_flatMap]
  constructor
  · intro a _
    exact take_one_nodup _
  · refine (List.nodup_dedup _).imp ?_
    intro a b hab
    intro x hxa hxb
    have hxa' : x.1.1 = a := by
      have := List.mem_filter.mp
        ((mem_sortDesc _ _ x).mp (List.mem_of_mem_take hxa))
      simpa using this.2
    have hxb' : x.1.1 = b := by
      have := List.mem_filter.mp
        ((mem_sortDesc _ _ x).mp (List.mem_of_mem_take hxb))
      simpa using this.2
    exact hab (hxa' ▸ hxb')

/-- Helper: the many-to-one greedy scan output has no duplicate links when
scores are pairwise distinct. -/
theorem greedy_many_to_one_nodup (scores : List Link)
    (hdist : (scores.map (fun l => l.2)).Nodup) :
    (greedy_many_to_one scores).Nodup :=
  (scan_one_side_sublist _ []).nodup
    (nodup_of_pairwise_lt (sortDesc_pairwise_lt scores hdist))

/-- C5. With pairwise-distinct scores, the output of
`RecordLinkMatching.many_to_one` is (definitionally) the gazetteer
top-1-per-query-group matching `pair_gazette_matching(scores, 1)`, and it
holds exactly the links the greedy descending-score scan that marks only
the "one" side's endpoint consumed accepts (the two emission orders differ
— per-query grouping versus descending score — so equality is as link
multisets, an order the spec leaves unspecified). -/
theorem many_to_one_equals_greedy_top1 (scores : List Link)
    (hdist : (scores.map (fun l => l.2)).Nodup) :
    many_to_one scores = pair_gazette_matching scores 1 ∧
    (many_to_one scores).Perm (greedy_many_to_one scores) := by
  refine ⟨rfl, ?_⟩
  rw [List.perm_ext_iff_of_nodup (many_to_one_nodup scores)
    (greedy_many_to_one_nodup scores hdist)]
  intro l
  rw [many_to_one_mem scores hdist l, greedy_many_to_one_mem scores hdist l]

/-- C5 witness: the equivalence at a concrete scored-pair list with
pairwise-distinct scores, where query 1 has two candidate pairs. -/
theorem many_to_one_equals_greedy_top1_witness :
    many_to_one [((2, 20), 1), ((1, 10), 5), ((1, 11), 3)] =
      pair_gazette_matching [((2, 20), 1), ((1, 10), 5), ((1, 11), 3)] 1 ∧
    (many_to_one [((2, 20), 1), ((1, 10), 5), ((1, 11), 3)]).Perm
      (greedy_many_to_one [((2, 20), 1), ((1, 10), 5), ((1, 11), 3)]) :=
  many_to_one_equals_greedy_top1 [((2, 20), 1), ((1, 10), 5), ((1, 11), 3)]
    (by decide)

end DedupeSpec
